import Mathlib

/-!
Verification of the ProfAI retrieval/answer-selection pipeline and its
response-quality gate.

The definitions below are a shallow embedding of:
  * `utils/response_validator.py` (`ResponseValidator`): character-level
    sanitization and validity checks, modelled over `List Char`;
  * `services/chat_service.py` (`ChatService.ask_question`,
    `ChatService.update_with_course_content`): the orchestration logic,
    with the external collaborators (translator, RAG chain, LLM API)
    passed in as abstract environments, and exceptions modelled with
    `Except`.

Unicode character classes used by the Python code (`\w`, `str.isalpha`,
`str.lower`, whitespace) are modelled on the character ranges the code
itself names (ASCII plus the Indic/Arabic script blocks listed in
`GARBAGE_PATTERNS`); all concrete inputs evaluated in the theorems are
ASCII, where this model agrees exactly with Python semantics.
-/

/-- Python `\s` whitespace (ASCII part). -/
def isPySpace (c : Char) : Bool :=
  c == ' ' || c == '\t' || c == '\n' || c == '\r' || c == '\x0b' || c == '\x0c'

/-- The punctuation class `[!?.]` of `sanitize_response`'s second regex. -/
def isCapPunct (c : Char) : Bool :=
  c == '!' || c == '?' || c == '.'

/-- The characters stripped from tokens by `word.lower().strip('.,!?;:')`. -/
def isStripPunct (c : Char) : Bool :=
  c == '.' || c == ',' || c == '!' || c == '?' || c == ';' || c == ':'

/-- The allow-listed script ranges of the third garbage pattern:
`ऀ-ॿ ... ଀-୿`, `ఀ-౿ ... ഀ-ൿ`,
`؀-ۿ` (contiguous blocks merged). -/
def inScript (c : Char) : Bool :=
  (0x0900 ≤ c.toNat && c.toNat ≤ 0x0B7F) ||
  (0x0C00 ≤ c.toNat && c.toNat ≤ 0x0D7F) ||
  (0x0600 ≤ c.toNat && c.toNat ≤ 0x06FF)

/-- The full allow-list of the third garbage pattern:
`[a-zA-Z]` plus the script ranges. -/
def inAllowList (c : Char) : Bool :=
  ('a' ≤ c && c ≤ 'z') || ('A' ≤ c && c ≤ 'Z') || inScript c

/-- Python `str.isalpha`, restricted to the scripts the validator names. -/
def isPyAlpha (c : Char) : Bool :=
  ('a' ≤ c && c ≤ 'z') || ('A' ≤ c && c ≤ 'Z') || inScript c

/-- Python `\w` (word character), restricted to the scripts the validator
names: alphanumeric or underscore. -/
def isWordChar (c : Char) : Bool :=
  isPyAlpha c || c.isDigit || c == '_'

/-- Drop the longest suffix of characters satisfying `p`
(the right half of Python `strip`). -/
def dropTrailing (p : Char → Bool) : List Char → List Char
  | [] => []
  | c :: cs =>
    let r := dropTrailing p cs
    if r.isEmpty && p c then [] else c :: r

/-- Python `str.strip()`: remove leading and trailing whitespace. -/
def pyStrip (l : List Char) : List Char :=
  dropTrailing isPySpace (l.dropWhile isPySpace)

/-- `re.sub(r'\s+', ' ', response)`: collapse every whitespace run to a
single space.  `prev` records whether we are inside a whitespace run. -/
def collapseWS : Bool → List Char → List Char
  | _, [] => []
  | prev, c :: cs =>
    if isPySpace c then
      if prev then collapseWS true cs else ' ' :: collapseWS true cs
    else c :: collapseWS false cs

/-- Last element of a list, as the regex backreference `\1` captures the
last repetition of the group. -/
def lastElem : List Char → Option Char
  | [] => none
  | [c] => some c
  | _ :: cs => lastElem cs

/-- Emit one maximal `[!?.]` run: a run of length ≥ 4 is replaced by three
copies of its last character (`re.sub(r'([!?.]){4,}', r'\1\1\1', _)`). -/
def emitRun (run : List Char) : List Char :=
  if 4 ≤ run.length then
    match lastElem run with
    | some l => [l, l, l]
    | none => []
  else run

/-- Scan for `re.sub(r'([!?.]){4,}', r'\1\1\1', _)`: `run` is the current
(not yet emitted) punctuation run, in order. -/
def capPunctAux : List Char → List Char → List Char
  | run, [] => emitRun run
  | run, c :: cs =>
    if isCapPunct c then capPunctAux (run ++ [c]) cs
    else emitRun run ++ c :: capPunctAux [] cs

/-- `ResponseValidator.sanitize_response` on the character list:
collapse whitespace, cap punctuation runs, strip. -/
def sanitizeList (l : List Char) : List Char :=
  pyStrip (capPunctAux [] (collapseWS false l))

/-- `ResponseValidator.sanitize_response`. -/
def sanitize_response (s : String) : String :=
  if s.data.isEmpty then "" else String.mk (sanitizeList s.data)

/-- First garbage pattern `^[\W_]{10,}$`: the whole string is non-word
characters (or underscores) and has length ≥ 10. -/
def garbage1 (l : List Char) : Bool :=
  10 ≤ l.length && l.all (fun c => !isWordChar c || c == '_')

/-- Second garbage pattern `(.)\1{20,}`: some non-newline character occurs
21 or more times consecutively (`.` does not match a newline). -/
def run21 : List Char → Bool
  | [] => false
  | c :: cs =>
    (!(c == '\n') && 20 ≤ (cs.takeWhile (fun d => d == c)).length) || run21 cs

/-- Third garbage pattern `^[^ranges]{50,}$`: the whole string consists of
characters outside the allow-list and has length ≥ 50. -/
def garbage3 (l : List Char) : Bool :=
  50 ≤ l.length && l.all (fun c => !inAllowList c)

/-- The `GARBAGE_PATTERNS` loop of `is_valid_response`. -/
def hasGarbage (l : List Char) : Bool :=
  garbage1 l || run21 l || garbage3 l

/-- Python `str.split()`: split on whitespace runs, discarding empties.
`cur` is the token currently being read. -/
def pySplitAux : List Char → List Char → List (List Char)
  | cur, [] => if cur.isEmpty then [] else [cur]
  | cur, c :: cs =>
    if isPySpace c then
      if cur.isEmpty then pySplitAux [] cs else cur :: pySplitAux [] cs
    else pySplitAux (cur ++ [c]) cs

/-- Python `response.split()`. -/
def pySplit (l : List Char) : List (List Char) :=
  pySplitAux [] l

/-- `word.lower().strip('.,!?;:')`. -/
def normToken (w : List Char) : List Char :=
  dropTrailing isStripPunct ((w.map Char.toLower).dropWhile isStripPunct)

/-- Occurrences of token `t` in a token list (the `word_counts` dict). -/
def countTok (t : List Char) : List (List Char) → Nat
  | [] => 0
  | w :: ws => (if w = t then 1 else 0) + countTok t ws

/-- The excessive-repetition check of `is_valid_response`: only applied
when the response has more than 10 whitespace-separated words; a word is
counted only when its normalized form is longer than 3 characters, and the
response is rejected when some count exceeds both `max_repetition` and
0.3 times the word count (`count > len(words) * 0.3`, exact for the word
counts reachable here). -/
def repetitionExcessive (l : List Char) (max_repetition : Nat) : Bool :=
  let words := pySplit l
  if 10 < words.length then
    (words.map normToken).any (fun t =>
      decide (3 < t.length) &&
      decide (max_repetition < countTok t (words.map normToken)) &&
      decide (3 * words.length < 10 * countTok t (words.map normToken)))
  else false

/-- The character-distribution check: for responses longer than 20
characters, reject when the alphabetic fraction is below 0.3
(`alpha_count / total_chars < 0.3`, exact at these sizes). -/
def densityLow (l : List Char) : Bool :=
  decide (20 < l.length) && decide (10 * (l.filter isPyAlpha).length < 3 * l.length)

/-- `ResponseValidator.is_valid_response` (Python defaults:
`min_length = 5`, `max_repetition = 5`). -/
def is_valid_response (response : String) (min_length max_repetition : Nat) : Bool :=
  if response.data.isEmpty then false
  else if (pyStrip response.data).length < min_length then false
  else if hasGarbage response.data then false
  else if repetitionExcessive response.data max_repetition then false
  else if densityLow response.data then false
  else true

/-- The generic apology returned by `validate_and_sanitize` when no
fallback message is supplied (or the supplied one is empty/falsy). -/
def DEFAULT_FALLBACK : String :=
  "I apologize, but I encountered an issue generating a proper response. Please try rephrasing your question."

/-- `ResponseValidator.validate_and_sanitize`: sanitize first, validate the
sanitized text, else return the fallback (Python truthiness: an empty
fallback string falls through to the generic apology). -/
def validate_and_sanitize (response : String) (fallback_message : Option String) : String :=
  let sanitized := sanitize_response response
  if is_valid_response sanitized 5 5 then sanitized
  else
    match fallback_message with
    | some fb => if fb.data.isEmpty then DEFAULT_FALLBACK else fb
    | none => DEFAULT_FALLBACK

/-! ## Chat service (`services/chat_service.py`, `services/llm_service.py`) -/

/-- The sentinel phrase checked by `ask_question`
(`"I cannot find the answer" in answer`). -/
def SENTINEL : String := "I cannot find the answer"

/-- The fallback message `ask_question` passes to `validate_and_sanitize`
after the RAG chain. -/
def FB1 : String :=
  "I apologize, but I encountered an issue generating a proper response. Please try asking your question again."

/-- The apology `LLMService.get_general_response` returns when the chat
completion call raises. -/
def APOLOGY_LLM : String :=
  "I am sorry, I couldn\x27t process that request at the moment."

/-- `pattern` occurs as a contiguous substring (Python `in`). -/
def isPrefixOfL : List Char → List Char → Bool
  | [], _ => true
  | _ :: _, [] => false
  | a :: as, b :: bs => a == b && isPrefixOfL as bs

/-- Python substring test `pattern in s`. -/
def containsSub (pat : List Char) : List Char → Bool
  | [] => isPrefixOfL pat []
  | s@(_ :: rest) => isPrefixOfL pat s || containsSub pat rest

/-- Modelled from the spec: `config.SUPPORTED_LANGUAGES`, the fixed
supported-language table (code → display name) with `en-IN`/English as the
pivot; `config.py` is not part of the sources. -/
def SUPPORTED_LANGUAGES : List (String × String) :=
  [("en-IN", "English"), ("hi-IN", "Hindi"), ("bn-IN", "Bengali"), ("ta-IN", "Tamil")]

/-- `next((lang["name"] for lang in config.SUPPORTED_LANGUAGES if
lang["code"] == query_language_code), "English")`. -/
def langName (code : String) : String :=
  ((SUPPORTED_LANGUAGES.find? (fun p => p.1 == code)).map Prod.snd).getD "English"

/-- External collaborators of `ChatService`, abstracted per the spec's
collaborator interfaces: the Sarvam translator (`translate_text`, source
not included here), the RAG chain (`rag_service.get_answer`, which may
raise), and the OpenAI chat-completion call inside
`LLMService.get_general_response` (which may raise). -/
structure AskEnv where
  translate : String → String → String
  ragAnswer : String → String → Except String String
  generalApi : String → String → Except String String

/-- Coordinator state: the vector store (modelled by its committed
documents) and the `is_rag_active` flag. -/
structure ChatState where
  vector_store : Option (List String)
  is_rag_active : Bool
deriving DecidableEq

/-- Calls made by one `ask_question` run, in order: translation
(`text`, `source_language_code`), RAG invocation (`english_query`,
`language_name`), general-knowledge generation (`query`,
`language_name`). -/
inductive Event where
  | translateCall : String → String → Event
  | ragCall : String → String → Event
  | generalCall : String → String → Event
deriving DecidableEq

/-- The `{answer, sources}` dict returned by `ask_question`. -/
structure AskResult where
  answer : String
  sources : List String
deriving DecidableEq

/-- `LLMService.get_general_response`: the chat completion's text, or the
fixed apology when the API call raises (the exception is caught inside
`llm_service.py`). -/
def get_general_response (env : AskEnv) (query target_language : String) : String :=
  match env.generalApi query target_language with
  | .ok s => s
  | .error _ => APOLOGY_LLM

/-- The query text handed to the RAG chain: translated to the pivot when
the query language is not `en-IN` (translation happens only on the
RAG-active path in the source). -/
def englishQ (env : AskEnv) (query lang : String) : String :=
  if lang == "en-IN" then query else env.translate query lang

/-- The translation events emitted by the RAG-active path. -/
def transEvents (query lang : String) : List Event :=
  if lang == "en-IN" then [] else [.translateCall query lang]

/-- `ChatService.ask_question`, with its emitted call trace.  The `try`
block around the RAG chain is modelled by the match on
`env.ragAnswer`: an `.error` is the caught exception, after which control
falls through to the bottom general-knowledge block of the source. -/
def ask_question (st : ChatState) (env : AskEnv) (query lang : String) :
    AskResult × List Event :=
  let name := langName lang
  if st.is_rag_active then
    match env.ragAnswer (englishQ env query lang) name with
    | .ok raw =>
      let answer := validate_and_sanitize raw (some FB1)
      if containsSub SENTINEL.data answer.data then
        (⟨validate_and_sanitize (get_general_response env query name) none,
          ["General Knowledge Fallback"]⟩,
         transEvents query lang ++
           [.ragCall (englishQ env query lang) name, .generalCall query name])
      else
        (⟨answer, ["Course Content"]⟩,
         transEvents query lang ++ [.ragCall (englishQ env query lang) name])
    | .error _ =>
      (⟨validate_and_sanitize (get_general_response env query name) none,
        ["General Knowledge"]⟩,
       transEvents query lang ++
         [.ragCall (englishQ env query lang) name, .generalCall query name])
  else
    (⟨validate_and_sanitize (get_general_response env query name) none,
      ["General Knowledge"]⟩,
     [.generalCall query name])

/-- Collaborators of `update_with_course_content`: the document extraction
(which may raise), the splitter, whether `add_documents` succeeds, and the
result of re-running `_initialize_vector_store` (which catches its own
exceptions and yields `none` on failure). -/
structure IngestEnv where
  extract : Except String (List String)
  split : List String → List String
  addOk : Bool
  reinit : Option (List String)

/-- `ChatService.update_with_course_content`: returns the raised error (if
any) together with the state after the call; the `except` clause re-raises
(`raise e`), and mutations made before the exception persist. -/
def update_with_course_content (st : ChatState) (env : IngestEnv) :
    Except String Unit × ChatState :=
  match env.extract with
  | .error e => (.error e, st)
  | .ok docs =>
    if docs.isEmpty then (.ok (), st)
    else
      let split_docs := env.split docs
      match st.vector_store with
      | some idx =>
        if env.addOk then (.ok (), ⟨some (idx ++ split_docs), st.is_rag_active⟩)
        else (.error "add_documents failed", st)
      | none =>
        match env.reinit with
        | none => (.ok (), st)
        | some idx =>
          if env.addOk then (.ok (), ⟨some (idx ++ split_docs), true⟩)
          else (.error "add_documents failed", ⟨some idx, st.is_rag_active⟩)

/-! ## Sanitization invariants -/

/-- All whitespace characters are plain spaces. -/
def wsAll (l : List Char) : Bool :=
  l.all (fun c => !isPySpace c || c == ' ')

/-- No two consecutive whitespace characters; `prev` says whether the
previous character was whitespace. -/
def wsScan : Bool → List Char → Bool
  | _, [] => true
  | prev, c :: cs => if isPySpace c then !prev && wsScan true cs else wsScan false cs

/-- Every maximal `[!?.]` run has length at most 3; `k` is the length of
the punctuation run in progress. -/
def punctScan : Nat → List Char → Bool
  | _, [] => true
  | k, c :: cs =>
    if isCapPunct c then decide (k + 1 ≤ 3) && punctScan (k + 1) cs
    else punctScan 0 cs

/-- The first character, if any, is not whitespace. -/
def headNonSpace : List Char → Bool
  | [] => true
  | c :: _ => !isPySpace c

/-- The last character, if any, is not whitespace. -/
def lastNonSpace : List Char → Bool
  | [] => true
  | [c] => !isPySpace c
  | _ :: cs => lastNonSpace cs

/-- The shape every output of `sanitize_response` has: whitespace collapsed
to single plain spaces, punctuation runs capped at 3, and trimmed. -/
def pySanitized (l : List Char) : Bool :=
  wsAll l && wsScan false l && punctScan 0 l && headNonSpace l && lastNonSpace l

theorem capPunct_nonspace {c : Char} (h : isCapPunct c = true) : isPySpace c = false := by
  simp only [isCapPunct, Bool.or_eq_true, beq_iff_eq] at h
  rcases h with (h | h) | h <;> subst h <;> rfl

theorem lastElem_mem : ∀ {l : List Char} {x : Char}, lastElem l = some x → x ∈ l := by
  intro l
  induction l with
  | nil => intro x h; simp [lastElem] at h
  | cons c cs ih =>
    intro x h
    cases cs with
    | nil => simp [lastElem] at h; simp [h]
    | cons d ds =>
      simp only [lastElem] at h
      exact List.mem_cons_of_mem c (ih h)

theorem lastElem_isSome {l : List Char} (h : l ≠ []) : ∃ x, lastElem l = some x := by
  induction l with
  | nil => exact absurd rfl h
  | cons c cs ih =>
    cases cs with
    | nil => exact ⟨c, rfl⟩
    | cons d ds => simpa [lastElem] using ih (by simp)

theorem emitRun_all {run : List Char} {p : Char → Bool} (h : run.all p = true) :
    (emitRun run).all p = true := by
  unfold emitRun
  split
  · cases hg : lastElem run with
    | none => simp
    | some x =>
      have hx : p x = true := by
        rw [List.all_eq_true] at h
        exact h x (lastElem_mem hg)
      simp [hx]
  · exact h

theorem emitRun_short (run : List Char) : (emitRun run).length ≤ 3 := by
  unfold emitRun
  split
  · next h4 =>
    cases hg : lastElem run with
    | none => simp
    | some x => simp
  · next h4 => omega

theorem emitRun_ne_nil {run : List Char} (h : run ≠ []) : emitRun run ≠ [] := by
  unfold emitRun
  split
  · next h4 =>
    obtain ⟨x, hx⟩ := lastElem_isSome h
    simp [hx]
  · exact h

theorem wsScan_of_all_nonspace : ∀ (l : List Char) (b : Bool),
    l.all (fun c => !isPySpace c) = true → wsScan b l = true := by
  intro l
  induction l with
  | nil => intro b _; rfl
  | cons c cs ih =>
    intro b h
    rw [List.all_cons, Bool.and_eq_true] at h
    have hc : isPySpace c = false := by
      cases hx : isPySpace c
      · rfl
      · rw [hx] at h; exact absurd h.1 (by simp)
    simp [wsScan, hc, ih false h.2]

theorem wsScan_weaken : ∀ {l : List Char}, wsScan true l = true → wsScan false l = true := by
  intro l h
  cases l with
  | nil => rfl
  | cons c cs =>
    simp only [wsScan] at h ⊢
    cases hc : isPySpace c
    · rw [hc] at h; simpa using h
    · rw [hc] at h; simp at h

theorem wsScan_strengthen : ∀ {l : List Char}, headNonSpace l = true →
    wsScan false l = true → wsScan true l = true := by
  intro l hh h
  cases l with
  | nil => rfl
  | cons c cs =>
    simp only [headNonSpace] at hh
    have hc : isPySpace c = false := by cases hx : isPySpace c; rfl; simp [hx] at hh
    simpa [wsScan, hc] using h

theorem wsScan_append : ∀ (E m : List Char),
    E.all (fun c => !isPySpace c) = true → wsScan false m = true →
    wsScan false (E ++ m) = true := by
  intro E
  induction E with
  | nil => intro m _ hm; simpa using hm
  | cons c cs ih =>
    intro m h hm
    rw [List.all_cons, Bool.and_eq_true] at h
    have hc : isPySpace c = false := by
      cases hx : isPySpace c
      · rfl
      · rw [hx] at h; exact absurd h.1 (by simp)
    simp only [List.cons_append, wsScan, hc]
    simpa using ih m h.2 hm

theorem wsScan_append_b : ∀ (E m : List Char) (b : Bool),
    E.all (fun c => !isPySpace c) = true → E ≠ [] → wsScan false m = true →
    wsScan b (E ++ m) = true := by
  intro E m b h hne hm
  cases E with
  | nil => exact absurd rfl hne
  | cons c cs =>
    rw [List.all_cons, Bool.and_eq_true] at h
    have hc : isPySpace c = false := by
      cases hx : isPySpace c
      · rfl
      · rw [hx] at h; exact absurd h.1 (by simp)
    simp only [List.cons_append, wsScan, hc]
    exact wsScan_append cs m h.2 hm

theorem punctScan_mono : ∀ (l : List Char) (j k : Nat), j ≤ k →
    punctScan k l = true → punctScan j l = true := by
  intro l
  induction l with
  | nil => intro j k _ _; rfl
  | cons c cs ih =>
    intro j k hjk h
    cases hc : isCapPunct c
    · simp only [punctScan, hc] at h ⊢
      simpa using h
    · simp [punctScan, hc] at h ⊢
      exact ⟨by omega, ih (j + 1) (k + 1) (by omega) h.2⟩

theorem punctScan_short : ∀ (l : List Char) (k : Nat),
    l.all isCapPunct = true → k + l.length ≤ 3 → punctScan k l = true := by
  intro l
  induction l with
  | nil => intro k _ _; rfl
  | cons c cs ih =>
    intro k h hk
    rw [List.all_cons, Bool.and_eq_true] at h
    simp only [punctScan, h.1, if_true, Bool.and_eq_true, decide_eq_true_eq]
    rw [List.length_cons] at hk
    constructor
    · omega
    · exact ih (k + 1) h.2 (by omega)

theorem punctScan_append : ∀ (E : List Char) (k : Nat) (c : Char) (X : List Char),
    E.all isCapPunct = true → k + E.length ≤ 3 → isCapPunct c = false →
    punctScan 0 X = true → punctScan k (E ++ c :: X) = true := by
  intro E
  induction E with
  | nil =>
    intro k c X _ _ hc hX
    simpa [punctScan, hc] using hX
  | cons e E' ih =>
    intro k c X h hk hc hX
    rw [List.all_cons, Bool.and_eq_true] at h
    rw [List.length_cons] at hk
    simp only [List.cons_append, punctScan, h.1, if_true, Bool.and_eq_true,
      decide_eq_true_eq]
    exact ⟨by omega, ih (k + 1) c X h.2 (by omega) hc hX⟩

theorem wsAll_of_nonspace {l : List Char} (h : l.all (fun c => !isPySpace c) = true) :
    wsAll l = true := by
  rw [List.all_eq_true] at h
  rw [wsAll, List.all_eq_true]
  intro c hc
  simp [h c hc]

theorem all_nonspace_of_punct {l : List Char} (h : l.all isCapPunct = true) :
    l.all (fun c => !isPySpace c) = true := by
  rw [List.all_eq_true] at h
  rw [List.all_eq_true]
  intro c hc
  simp [capPunct_nonspace (h c hc)]


theorem isPySpace_space : isPySpace ' ' = true := by decide

theorem collapseWS_sp_t {c : Char} {cs : List Char} (h : isPySpace c = true) :
    collapseWS true (c :: cs) = collapseWS true cs := by
  simp [collapseWS, h]

theorem collapseWS_sp_f {c : Char} {cs : List Char} (h : isPySpace c = true) :
    collapseWS false (c :: cs) = ' ' :: collapseWS true cs := by
  simp [collapseWS, h]

theorem collapseWS_ns {c : Char} {cs : List Char} {b : Bool} (h : isPySpace c = false) :
    collapseWS b (c :: cs) = c :: collapseWS false cs := by
  simp [collapseWS, h]

theorem capPunctAux_pos {c : Char} {cs run : List Char} (h : isCapPunct c = true) :
    capPunctAux run (c :: cs) = capPunctAux (run ++ [c]) cs := by
  simp [capPunctAux, h]

theorem capPunctAux_neg {c : Char} {cs run : List Char} (h : isCapPunct c = false) :
    capPunctAux run (c :: cs) = emitRun run ++ c :: capPunctAux [] cs := by
  simp [capPunctAux, h]

theorem wsScan_sp {c : Char} {cs : List Char} {b : Bool} (h : isPySpace c = true) :
    wsScan b (c :: cs) = (!b && wsScan true cs) := by
  simp [wsScan, h]

theorem wsScan_ns {c : Char} {cs : List Char} {b : Bool} (h : isPySpace c = false) :
    wsScan b (c :: cs) = wsScan false cs := by
  simp [wsScan, h]

theorem punctScan_pos {c : Char} {cs : List Char} {k : Nat} (h : isCapPunct c = true) :
    punctScan k (c :: cs) = (decide (k + 1 ≤ 3) && punctScan (k + 1) cs) := by
  simp [punctScan, h]

theorem punctScan_neg {c : Char} {cs : List Char} {k : Nat} (h : isCapPunct c = false) :
    punctScan k (c :: cs) = punctScan 0 cs := by
  simp [punctScan, h]

theorem wsAll_cons {c : Char} {cs : List Char} :
    wsAll (c :: cs) = ((!isPySpace c || c == ' ') && wsAll cs) := by
  simp [wsAll]

theorem collapseWS_invariants : ∀ (l : List Char) (b : Bool),
    wsAll (collapseWS b l) = true ∧ wsScan b (collapseWS b l) = true := by
  intro l
  induction l with
  | nil => intro b; exact ⟨rfl, rfl⟩
  | cons c cs ih =>
    intro b
    cases hc : isPySpace c
    · rw [collapseWS_ns hc, wsAll_cons, wsScan_ns hc]
      have h := ih false
      simp [hc, h.1, h.2]
    · cases b
      · rw [collapseWS_sp_f hc, wsAll_cons, wsScan_sp isPySpace_space]
        have h := ih true
        simp [isPySpace_space, h.1, h.2]
      · rw [collapseWS_sp_t hc]
        exact ih true

theorem capPunctAux_head : ∀ (l run : List Char), run ≠ [] →
    run.all isCapPunct = true →
    headNonSpace (capPunctAux run l) = true ∧ capPunctAux run l ≠ [] := by
  intro l
  induction l with
  | nil =>
    intro run hne hall
    have hne' : emitRun run ≠ [] := emitRun_ne_nil hne
    have hall' : (emitRun run).all isCapPunct = true := emitRun_all hall
    show headNonSpace (emitRun run) = true ∧ emitRun run ≠ []
    refine ⟨?_, hne'⟩
    cases he : emitRun run with
    | nil => exact absurd he hne'
    | cons x xs =>
      rw [he, List.all_cons, Bool.and_eq_true] at hall'
      simp [headNonSpace, capPunct_nonspace hall'.1]
  | cons c cs ih =>
    intro run hne hall
    cases hc : isCapPunct c
    · rw [capPunctAux_neg hc]
      have hne' : emitRun run ≠ [] := emitRun_ne_nil hne
      have hall' : (emitRun run).all isCapPunct = true := emitRun_all hall
      cases he : emitRun run with
      | nil => exact absurd he hne'
      | cons x xs =>
        rw [he, List.all_cons, Bool.and_eq_true] at hall'
        constructor
        · simp [headNonSpace, capPunct_nonspace hall'.1]
        · simp
    · rw [capPunctAux_pos hc]
      refine ih (run ++ [c]) (by simp) ?_
      rw [List.all_append]
      simp [hall, hc]

theorem capPunctAux_invariants : ∀ (l run : List Char) (b : Bool),
    run.all isCapPunct = true → wsAll l = true → wsScan b l = true →
    wsAll (capPunctAux run l) = true ∧ wsScan b (capPunctAux run l) = true ∧
      punctScan 0 (capPunctAux run l) = true := by
  intro l
  induction l with
  | nil =>
    intro run b hrun _ _
    have hall : (emitRun run).all isCapPunct = true := emitRun_all hrun
    have hns : (emitRun run).all (fun c => !isPySpace c) = true :=
      all_nonspace_of_punct hall
    show wsAll (emitRun run) = true ∧ wsScan b (emitRun run) = true ∧
      punctScan 0 (emitRun run) = true
    refine ⟨wsAll_of_nonspace hns, wsScan_of_all_nonspace _ b hns, ?_⟩
    exact punctScan_short _ 0 hall (by have := emitRun_short run; omega)
  | cons c cs ih =>
    intro run b hrun hall hscan
    rw [wsAll_cons, Bool.and_eq_true] at hall
    cases hc : isCapPunct c
    · -- non-punct head: the pending run is emitted
      rw [capPunctAux_neg hc]
      have hallE : (emitRun run).all isCapPunct = true := emitRun_all hrun
      have hnsE : (emitRun run).all (fun x => !isPySpace x) = true :=
        all_nonspace_of_punct hallE
      have hwsE : wsAll (emitRun run) = true := wsAll_of_nonspace hnsE
      have hlenE : (emitRun run).length ≤ 3 := emitRun_short run
      cases hsp : isPySpace c
      · have hscan' : wsScan false cs = true := by
          rw [wsScan_ns hsp] at hscan; exact hscan
        have h := ih [] false rfl hall.2 hscan'
        refine ⟨?_, ?_, ?_⟩
        · rw [wsAll] at hwsE ⊢
          rw [List.all_append, List.all_cons]
          simp only [wsAll] at h
          simp [hwsE, hall.1, h.1]
        · have hcs : wsScan false (c :: capPunctAux [] cs) = true := by
            rw [wsScan_ns hsp]; exact h.2.1
          cases hE : emitRun run with
          | nil =>
            rw [List.nil_append]
            cases b
            · exact hcs
            · have hh : headNonSpace (c :: capPunctAux [] cs) = true := by
                simp [headNonSpace, hsp]
              exact wsScan_strengthen hh hcs
          | cons x xs =>
            rw [← hE]
            exact wsScan_append_b _ _ b hnsE (by simp [hE]) hcs
        · exact punctScan_append _ 0 c _ hallE (by omega) hc h.2.2
      · have hb : b = false ∧ wsScan true cs = true := by
          rw [wsScan_sp hsp] at hscan
          cases b
          · simpa using hscan
          · simp at hscan
        obtain ⟨hb1, hb2⟩ := hb
        have h := ih [] true rfl hall.2 hb2
        subst hb1
        refine ⟨?_, ?_, ?_⟩
        · rw [wsAll] at hwsE ⊢
          rw [List.all_append, List.all_cons]
          simp only [wsAll] at h
          simp [hwsE, hall.1, h.1]
        · have hcs : wsScan false (c :: capPunctAux [] cs) = true := by
            rw [wsScan_sp hsp]
            simp [hb2, h.2.1]
          cases hE : emitRun run with
          | nil => rw [List.nil_append]; exact hcs
          | cons x xs =>
            rw [← hE]
            exact wsScan_append _ _ hnsE hcs
        · exact punctScan_append _ 0 c _ hallE (by omega) hc h.2.2
    · -- punctuation head: grow the run
      rw [capPunctAux_pos hc]
      have hsp : isPySpace c = false := capPunct_nonspace hc
      have hscan' : wsScan false cs = true := by
        rw [wsScan_ns hsp] at hscan; exact hscan
      have hrun2 : (run ++ [c]).all isCapPunct = true := by
        rw [List.all_append]; simp [hrun, hc]
      have h := ih (run ++ [c]) false hrun2 hall.2 hscan'
      refine ⟨h.1, ?_, h.2.2⟩
      cases b
      · exact h.2.1
      · have hh := capPunctAux_head cs (run ++ [c]) (by simp) hrun2
        exact wsScan_strengthen hh.1 h.2.1

theorem dropWhile_suffix (p : Char → Bool) :
    ∀ l : List Char, ∃ t, l = t ++ l.dropWhile p := by
  intro l
  induction l with
  | nil => exact ⟨[], rfl⟩
  | cons c cs ih =>
    cases hc : p c
    · exact ⟨[], by simp [List.dropWhile, hc]⟩
    · obtain ⟨t, ht⟩ := ih
      exact ⟨c :: t, by simp [List.dropWhile, hc]; exact ht⟩

theorem dropTrailing_isPre (p : Char → Bool) :
    ∀ l : List Char, ∃ t, l = dropTrailing p l ++ t := by
  intro l
  induction l with
  | nil => exact ⟨[], rfl⟩
  | cons c cs ih =>
    obtain ⟨t, ht⟩ := ih
    simp only [dropTrailing]
    by_cases hcond : (dropTrailing p cs).isEmpty ∧ p c = true
    · refine ⟨c :: cs, ?_⟩
      rw [if_pos (by simp [hcond.1, hcond.2])]
      rfl
    · rw [if_neg (by
        intro hx
        rw [Bool.and_eq_true] at hx
        exact hcond ⟨hx.1, hx.2⟩)]
      exact ⟨t, by rw [List.cons_append, ← ht]⟩

theorem wsScan_suffix : ∀ (a m : List Char) (b : Bool),
    wsScan b (a ++ m) = true → wsScan false m = true := by
  intro a
  induction a with
  | nil =>
    intro m b h
    cases b
    · exact h
    · exact wsScan_weaken h
  | cons c cs ih =>
    intro m b h
    cases hc : isPySpace c
    · rw [List.cons_append, wsScan_ns hc] at h
      exact ih m false h
    · rw [List.cons_append, wsScan_sp hc, Bool.and_eq_true] at h
      exact ih m true h.2

theorem wsScan_take : ∀ (m t : List Char) (b : Bool),
    wsScan b (m ++ t) = true → wsScan b m = true := by
  intro m
  induction m with
  | nil => intro t b _; rfl
  | cons c cs ih =>
    intro t b h
    cases hc : isPySpace c
    · rw [List.cons_append, wsScan_ns hc] at h
      rw [wsScan_ns hc]
      exact ih t false h
    · rw [List.cons_append, wsScan_sp hc, Bool.and_eq_true] at h
      rw [wsScan_sp hc, Bool.and_eq_true]
      exact ⟨h.1, ih t true h.2⟩

theorem punctScan_suffix : ∀ (a : List Char) (k : Nat) (m : List Char),
    punctScan k (a ++ m) = true → punctScan 0 m = true := by
  intro a
  induction a with
  | nil =>
    intro k m h
    exact punctScan_mono m 0 k (Nat.zero_le k) h
  | cons c cs ih =>
    intro k m h
    cases hc : isCapPunct c
    · rw [List.cons_append, punctScan_neg hc] at h
      exact ih 0 m h
    · rw [List.cons_append, punctScan_pos hc, Bool.and_eq_true] at h
      exact ih (k + 1) m h.2

theorem punctScan_take : ∀ (m : List Char) (k : Nat) (t : List Char),
    punctScan k (m ++ t) = true → punctScan k m = true := by
  intro m
  induction m with
  | nil => intro k t _; rfl
  | cons c cs ih =>
    intro k t h
    cases hc : isCapPunct c
    · rw [List.cons_append, punctScan_neg hc] at h
      rw [punctScan_neg hc]
      exact ih 0 t h
    · rw [List.cons_append, punctScan_pos hc, Bool.and_eq_true] at h
      rw [punctScan_pos hc, Bool.and_eq_true]
      exact ⟨h.1, ih (k + 1) t h.2⟩

theorem wsAll_suffix {a m : List Char} (h : wsAll (a ++ m) = true) : wsAll m = true := by
  rw [wsAll, List.all_append, Bool.and_eq_true] at h
  exact h.2

theorem wsAll_take {m t : List Char} (h : wsAll (m ++ t) = true) : wsAll m = true := by
  rw [wsAll, List.all_append, Bool.and_eq_true] at h
  exact h.1

theorem dropWhile_headNonSpace (l : List Char) :
    headNonSpace (l.dropWhile isPySpace) = true := by
  induction l with
  | nil => rfl
  | cons c cs ih =>
    cases hc : isPySpace c
    · simp [List.dropWhile, hc, headNonSpace]
    · simpa [List.dropWhile, hc] using ih

theorem dropTrailing_headNonSpace {p : Char → Bool} {l : List Char}
    (h : headNonSpace l = true) : headNonSpace (dropTrailing p l) = true := by
  cases l with
  | nil => rfl
  | cons c cs =>
    simp only [dropTrailing]
    split
    · rfl
    · simpa [headNonSpace] using h

theorem dropTrailing_lastNonSpace : ∀ l : List Char,
    lastNonSpace (dropTrailing isPySpace l) = true := by
  intro l
  induction l with
  | nil => rfl
  | cons c cs ih =>
    simp only [dropTrailing]
    split
    · rfl
    · next hcond =>
      cases hr : dropTrailing isPySpace cs with
      | nil =>
        have hc : isPySpace c = false := by
          rw [hr] at hcond
          cases hx : isPySpace c
          · rfl
          · exact absurd (by simp [hx]) hcond
        simp [lastNonSpace, hc]
      | cons x xs =>
        rw [hr] at ih
        simpa [lastNonSpace] using ih

/-- Every output of the sanitization pipeline is in canonical shape. -/
theorem sanitizeList_good (l : List Char) : pySanitized (sanitizeList l) = true := by
  have h1 := collapseWS_invariants l false
  have h2 := capPunctAux_invariants (collapseWS false l) [] false rfl h1.1 h1.2
  set R2 := capPunctAux [] (collapseWS false l) with hR2
  obtain ⟨t1, ht1⟩ := dropWhile_suffix isPySpace R2
  obtain ⟨t2, ht2⟩ := dropTrailing_isPre isPySpace (R2.dropWhile isPySpace)
  have hwsAll : wsAll (sanitizeList l) = true := by
    have hs : wsAll (R2.dropWhile isPySpace) = true := by
      rw [ht1] at h2; exact wsAll_suffix h2.1
    rw [ht2] at hs
    exact wsAll_take hs
  have hwsScan : wsScan false (sanitizeList l) = true := by
    have hs : wsScan false (R2.dropWhile isPySpace) = true := by
      have := h2.2.1
      rw [ht1] at this
      exact wsScan_suffix t1 _ false this
    rw [ht2] at hs
    exact wsScan_take _ t2 false hs
  have hpunct : punctScan 0 (sanitizeList l) = true := by
    have hs : punctScan 0 (R2.dropWhile isPySpace) = true := by
      have := h2.2.2
      rw [ht1] at this
      exact punctScan_suffix t1 0 _ this
    rw [ht2] at hs
    exact punctScan_take _ 0 t2 hs
  have hhead : headNonSpace (sanitizeList l) = true :=
    dropTrailing_headNonSpace (dropWhile_headNonSpace R2)
  have hlast : lastNonSpace (sanitizeList l) = true :=
    dropTrailing_lastNonSpace (R2.dropWhile isPySpace)
  rw [pySanitized, hwsAll, hwsScan, hpunct, hhead, hlast]
  rfl

theorem collapseWS_noop : ∀ (l : List Char) (b : Bool),
    wsAll l = true → wsScan b l = true → collapseWS b l = l := by
  intro l
  induction l with
  | nil => intro b _ _; rfl
  | cons c cs ih =>
    intro b hall hscan
    rw [wsAll_cons, Bool.and_eq_true] at hall
    cases hc : isPySpace c
    · rw [collapseWS_ns hc]
      rw [wsScan_ns hc] at hscan
      rw [ih false hall.2 hscan]
    · rw [wsScan_sp hc, Bool.and_eq_true] at hscan
      have hb : b = false := by
        cases b
        · rfl
        · exact absurd hscan.1 (by simp)
      subst hb
      rw [collapseWS_sp_f hc]
      have hcsp : c = ' ' := by
        rcases Bool.or_eq_true _ _ |>.mp hall.1 with hx | hx
        · rw [hc] at hx; simp at hx
        · exact beq_iff_eq.mp hx
      rw [ih true hall.2 hscan.2, hcsp]

theorem capPunctAux_noop : ∀ (l run : List Char),
    run.all isCapPunct = true → run.length ≤ 3 → punctScan run.length l = true →
    capPunctAux run l = run ++ l := by
  intro l
  induction l with
  | nil =>
    intro run _ hlen _
    show emitRun run = run ++ []
    rw [List.append_nil]
    unfold emitRun
    rw [if_neg (by omega)]
  | cons c cs ih =>
    intro run hrun hlen hscan
    cases hc : isCapPunct c
    · rw [capPunctAux_neg hc]
      rw [punctScan_neg hc] at hscan
      have he : emitRun run = run := by
        unfold emitRun
        rw [if_neg (by omega)]
      rw [he, ih [] rfl (by simp) (by simpa using hscan)]
      simp
    · rw [capPunctAux_pos hc]
      rw [punctScan_pos hc, Bool.and_eq_true, decide_eq_true_eq] at hscan
      have hrun2 : (run ++ [c]).all isCapPunct = true := by
        rw [List.all_append]; simp [hrun, hc]
      have hlen2 : (run ++ [c]).length = run.length + 1 := by simp
      rw [ih (run ++ [c]) hrun2 (by omega) (by rw [hlen2]; exact hscan.2)]
      simp

theorem dropWhile_noop {l : List Char} (h : headNonSpace l = true) :
    l.dropWhile isPySpace = l := by
  cases l with
  | nil => rfl
  | cons c cs =>
    simp only [headNonSpace] at h
    have hc : isPySpace c = false := by
      cases hx : isPySpace c
      · rfl
      · rw [hx] at h; simp at h
    simp [List.dropWhile, hc]

theorem dropTrailing_noop : ∀ l : List Char,
    lastNonSpace l = true → dropTrailing isPySpace l = l := by
  intro l
  induction l with
  | nil => intro _; rfl
  | cons c cs ih =>
    intro h
    cases cs with
    | nil =>
      simp only [lastNonSpace] at h
      have hc : isPySpace c = false := by
        cases hx : isPySpace c
        · rfl
        · rw [hx] at h; simp at h
      simp [dropTrailing, hc]
    | cons d ds =>
      have h2 : lastNonSpace (d :: ds) = true := h
      have hr := ih h2
      show (if ((dropTrailing isPySpace (d :: ds)).isEmpty && isPySpace c) = true
            then [] else c :: dropTrailing isPySpace (d :: ds)) = c :: d :: ds
      rw [hr]
      simp

theorem sanitizeList_noop {l : List Char} (h : pySanitized l = true) :
    sanitizeList l = l := by
  rw [pySanitized] at h
  simp only [Bool.and_eq_true] at h
  obtain ⟨⟨⟨⟨hall, hscan⟩, hpunct⟩, hhead⟩, hlast⟩ := h
  rw [sanitizeList, collapseWS_noop l false hall hscan,
      capPunctAux_noop l [] rfl (by simp) (by simpa using hpunct)]
  rw [List.nil_append, pyStrip, dropWhile_noop hhead, dropTrailing_noop l hlast]

theorem mk_data (s : String) : String.mk s.data = s := by
  cases s
  rfl

/-- `sanitize_response` is idempotent. -/
theorem sanitize_response_idem (s : String) :
    sanitize_response (sanitize_response s) = sanitize_response s := by
  by_cases h : s.data.isEmpty
  · have hs : sanitize_response s = "" := by rw [sanitize_response, if_pos h]
    rw [hs]
    rfl
  · have hs : sanitize_response s = String.mk (sanitizeList s.data) := by
      rw [sanitize_response, if_neg h]
    rw [hs]
    set t := String.mk (sanitizeList s.data) with ht
    by_cases h2 : t.data.isEmpty
    · have hst : sanitize_response t = "" := by rw [sanitize_response, if_pos h2]
      rw [hst]
      have hd : t.data = [] := by
        cases hx : t.data
        · rfl
        · rw [hx] at h2; simp [List.isEmpty] at h2
      rw [← mk_data t, hd]
    · have hst : sanitize_response t = String.mk (sanitizeList t.data) := by
        rw [sanitize_response, if_neg h2]
      rw [hst]
      have hgood : pySanitized t.data = true := sanitizeList_good s.data
      rw [sanitizeList_noop hgood, mk_data]

/-- String-level canonical-shape invariant of `sanitize_response`. -/
theorem sanitize_response_good (s : String) :
    pySanitized (sanitize_response s).data = true := by
  by_cases h : s.data.isEmpty
  · have hs : sanitize_response s = "" := by rw [sanitize_response, if_pos h]
    rw [hs]
    rfl
  · have hs : sanitize_response s = String.mk (sanitizeList s.data) := by
      rw [sanitize_response, if_neg h]
    rw [hs]
    exact sanitizeList_good s.data

/-- Outcomes of `validate_and_sanitize`: the sanitized text itself (which
then passes `is_valid_response`), the caller's fallback, or the generic
apology. -/
theorem vs_cases (s : String) (fb : Option String) :
    (validate_and_sanitize s fb = sanitize_response s ∧
      is_valid_response (validate_and_sanitize s fb) 5 5 = true) ∨
    validate_and_sanitize s fb = DEFAULT_FALLBACK ∨
    (∃ f, fb = some f ∧ validate_and_sanitize s fb = f) := by
  by_cases h : is_valid_response (sanitize_response s) 5 5 = true
  · left
    have he : validate_and_sanitize s fb = sanitize_response s := by
      simp only [validate_and_sanitize]
      rw [if_pos h]
    exact ⟨he, by rw [he]; exact h⟩
  · have hne : is_valid_response (sanitize_response s) 5 5 = false := by
      cases hx : is_valid_response (sanitize_response s) 5 5
      · rfl
      · exact absurd hx h
    right
    cases fb with
    | none =>
      left
      simp only [validate_and_sanitize]
      rw [if_neg (by simp [hne])]
    | some f =>
      by_cases hf : f.data.isEmpty
      · left
        simp only [validate_and_sanitize]
        rw [if_neg (by simp [hne])]
        simp [hf]
      · right
        refine ⟨f, rfl, ?_⟩
        simp only [validate_and_sanitize]
        rw [if_neg (by simp [hne])]
        simp [hf]

theorem countTok_pos_mem : ∀ {t : List Char} {L : List (List Char)},
    0 < countTok t L → t ∈ L := by
  intro t L
  induction L with
  | nil => intro h; simp [countTok] at h
  | cons w ws ih =>
    intro h
    by_cases hw : w = t
    · rw [hw]; exact List.mem_cons_self t ws
    · rw [countTok, if_neg hw, Nat.zero_add] at h
      exact List.mem_cons_of_mem w (ih h)

/-- If some over-3-character normalized token occurs more than
`max_repetition` times and more than 0.3 of the word count, the
repetition check fires (provided there are more than 10 words). -/
theorem repetitionExcessive_of_token {s : String} {t : List Char}
    (hw : 10 < (pySplit s.data).length)
    (hlen : 3 < t.length)
    (hcnt : 5 < countTok t ((pySplit s.data).map normToken))
    (hratio : 3 * (pySplit s.data).length <
      10 * countTok t ((pySplit s.data).map normToken)) :
    repetitionExcessive s.data 5 = true := by
  rw [repetitionExcessive]
  simp only [if_pos hw]
  rw [List.any_eq_true]
  refine ⟨t, countTok_pos_mem (by omega), ?_⟩
  simp [hlen, hcnt, hratio]

/-- A response whose repetition check fires is invalid. -/
theorem invalid_of_repetition {s : String}
    (h : repetitionExcessive s.data 5 = true) :
    is_valid_response s 5 5 = false := by
  simp [is_valid_response, h]

/-- Branch: RAG active, grounded call succeeds, validated answer contains
the sentinel → general-knowledge fallback, labelled accordingly. -/
theorem ask_rag_ok_sentinel {st : ChatState} {env : AskEnv} {query lang raw : String}
    (hR : st.is_rag_active = true)
    (hA : env.ragAnswer (englishQ env query lang) (langName lang) = .ok raw)
    (hS : containsSub SENTINEL.data (validate_and_sanitize raw (some FB1)).data = true) :
    ask_question st env query lang =
      (⟨validate_and_sanitize (get_general_response env query (langName lang)) none,
        ["General Knowledge Fallback"]⟩,
       transEvents query lang ++
         [.ragCall (englishQ env query lang) (langName lang),
          .generalCall query (langName lang)]) := by
  simp only [ask_question, hR, hA, hS]
  simp

/-- Branch: RAG active, grounded call succeeds, no sentinel → the validated
grounded answer is returned with label Course Content. -/
theorem ask_rag_ok_plain {st : ChatState} {env : AskEnv} {query lang raw : String}
    (hR : st.is_rag_active = true)
    (hA : env.ragAnswer (englishQ env query lang) (langName lang) = .ok raw)
    (hS : containsSub SENTINEL.data (validate_and_sanitize raw (some FB1)).data = false) :
    ask_question st env query lang =
      (⟨validate_and_sanitize raw (some FB1), ["Course Content"]⟩,
       transEvents query lang ++
         [.ragCall (englishQ env query lang) (langName lang)]) := by
  simp only [ask_question, hR, hA, hS]
  simp

/-- Branch: RAG active, grounded call raises → caught, control falls to the
general-knowledge block (sources label General Knowledge). -/
theorem ask_rag_err {st : ChatState} {env : AskEnv} {query lang e : String}
    (hR : st.is_rag_active = true)
    (hA : env.ragAnswer (englishQ env query lang) (langName lang) = .error e) :
    ask_question st env query lang =
      (⟨validate_and_sanitize (get_general_response env query (langName lang)) none,
        ["General Knowledge"]⟩,
       transEvents query lang ++
         [.ragCall (englishQ env query lang) (langName lang),
          .generalCall query (langName lang)]) := by
  simp only [ask_question, hR, hA]
  simp

/-- Branch: no retriever attached → pure general-knowledge path, no
translation at all. -/
theorem ask_inactive {st : ChatState} {env : AskEnv} {query lang : String}
    (hR : st.is_rag_active = false) :
    ask_question st env query lang =
      (⟨validate_and_sanitize (get_general_response env query (langName lang)) none,
        ["General Knowledge"]⟩,
       [.generalCall query (langName lang)]) := by
  simp only [ask_question, hR]
  simp

theorem vs_value_fb1 (s : String) :
    is_valid_response (validate_and_sanitize s (some FB1)) 5 5 = true ∨
    validate_and_sanitize s (some FB1) = FB1 ∨
    validate_and_sanitize s (some FB1) = DEFAULT_FALLBACK := by
  rcases vs_cases s (some FB1) with ⟨_, hv⟩ | hd | ⟨f, hf, he⟩
  · exact Or.inl hv
  · exact Or.inr (Or.inr hd)
  · cases hf
    exact Or.inr (Or.inl he)

theorem vs_value_none (s : String) :
    is_valid_response (validate_and_sanitize s none) 5 5 = true ∨
    validate_and_sanitize s none = DEFAULT_FALLBACK := by
  rcases vs_cases s none with ⟨_, hv⟩ | hd | ⟨f, hf, _⟩
  · exact Or.inl hv
  · exact Or.inr hd
  · cases hf

/-! ## Example environments for concrete evaluations -/

/-- Grounded call raises, general API healthy. -/
def envRagError : AskEnv :=
  ⟨fun t _ => t, fun _ _ => .error "rag failure",
   fun _ _ => .ok "Paris is the capital of France."⟩

/-- Grounded call returns the sentinel, general API healthy, translator
returns a fixed translation distinct from the input. -/
def envSentinel : AskEnv :=
  ⟨fun _ _ => "translated query", fun _ _ => .ok "I cannot find the answer",
   fun _ _ => .ok "General answer forty two indeed."⟩

/-- Both the grounded call and the general API raise. -/
def envAllFail : AskEnv :=
  ⟨fun t _ => t, fun _ _ => .error "rag failure", fun _ _ => .error "api down"⟩

/-- A coordinator state with an attached (empty) index and RAG active. -/
def stActive : ChatState := ⟨some [], true⟩

/-- Recognizer for translation events. -/
def isTransEv : Event → Bool
  | .translateCall _ _ => true
  | _ => false

/-! ## Claim theorems -/

/-- Ten copies of a 5-letter word: only 10 whitespace tokens, so the
repetition check of `is_valid_response` is skipped. -/
def s10ex : String :=
  "aaaaa aaaaa aaaaa aaaaa aaaaa aaaaa aaaaa aaaaa aaaaa aaaaa"

/-- A 25-word response repeating one 5-letter word 15 times. -/
def s25ex : String :=
  "alpha alpha alpha alpha alpha alpha alpha alpha alpha alpha alpha alpha alpha alpha alpha one two six ten car dog cat sun moon star"

/-- Twelve distinct 10-letter words followed by a 50-digit block: contains
a 50-character run without any allow-listed script character, embedded in
otherwise ordinary text. -/
def sRun50ex : String :=
  "abcdefghij bcdefghijk cdefghijkl defghijklm efghijklmn fghijklmno ghijklmnop hijklmnopq ijklmnopqr jklmnopqrs klmnopqrst lmnopqrstu 01234567890123456789012345678901234567890123456789"

/-- The spec's phrasing of garbage signature (c): some contiguous run of at
least 50 characters contains no allow-listed script character.  (The
source's regex, by contrast, anchors this test to the whole string.) -/
def specRun50NoScript : List Char → Bool
  | [] => false
  | c :: cs =>
    50 ≤ ((c :: cs).takeWhile (fun d => !inAllowList d)).length ||
    specRun50NoScript cs

/-- C9: for every input, `sanitize_response` collapses each whitespace run
to a single plain space, caps every `!`/`?`/`.` run at 3 characters, and
trims leading/trailing whitespace; in particular
`sanitize_response "a!!!!!!b" = "a!!!b"` and
`sanitize_response "too    many   spaces" = "too many spaces"`. -/
theorem c9_sanitize_shape :
    (∀ s : String, pySanitized (sanitize_response s).data = true) ∧
    sanitize_response "a!!!!!!b" = "a!!!b" ∧
    sanitize_response "too    many   spaces" = "too many spaces" :=
  ⟨sanitize_response_good, by decide, by decide⟩

/-- C10: `sanitize_response` is idempotent, and every non-fallback output
of `validate_and_sanitize` (i.e. when the sanitized text is valid) is a
fixed point of sanitization. -/
theorem c10_sanitize_idem :
    (∀ s : String, sanitize_response (sanitize_response s) = sanitize_response s) ∧
    (∀ (s : String) (fb : Option String),
      is_valid_response (sanitize_response s) 5 5 = true →
      sanitize_response (validate_and_sanitize s fb) = validate_and_sanitize s fb) := by
  constructor
  · exact sanitize_response_idem
  · intro s fb h
    have he : validate_and_sanitize s fb = sanitize_response s := by
      simp only [validate_and_sanitize]
      rw [if_pos h]
    rw [he, sanitize_response_idem]

theorem c10_sanitize_idem_witness :
    sanitize_response (validate_and_sanitize "hello world okay" none) =
      validate_and_sanitize "hello world okay" none :=
  c10_sanitize_idem.2 "hello world okay" none (by decide)

/-- C2: every answer returned by `ask_question` went through
`validate_and_sanitize`: it satisfies `is_valid_response` (it is the
sanitized text) or is one of the two fixed fallback messages. -/
theorem c2_no_unvalidated_output (st : ChatState) (env : AskEnv) (query lang : String) :
    is_valid_response (ask_question st env query lang).1.answer 5 5 = true ∨
    (ask_question st env query lang).1.answer = FB1 ∨
    (ask_question st env query lang).1.answer = DEFAULT_FALLBACK := by
  cases hR : st.is_rag_active
  · rw [ask_inactive hR]
    rcases vs_value_none (get_general_response env query (langName lang)) with h | h
    · exact Or.inl h
    · exact Or.inr (Or.inr h)
  · cases hA : env.ragAnswer (englishQ env query lang) (langName lang) with
    | error e =>
      rw [ask_rag_err hR hA]
      rcases vs_value_none (get_general_response env query (langName lang)) with h | h
      · exact Or.inl h
      · exact Or.inr (Or.inr h)
    | ok raw =>
      cases hS : containsSub SENTINEL.data (validate_and_sanitize raw (some FB1)).data
      · rw [ask_rag_ok_plain hR hA hS]
        exact vs_value_fb1 raw
      · rw [ask_rag_ok_sentinel hR hA hS]
        rcases vs_value_none (get_general_response env query (langName lang)) with h | h
        · exact Or.inl h
        · exact Or.inr (Or.inr h)

set_option maxRecDepth 8192 in
/-- C7 counterexample: with exactly 10 tokens of one 5-letter word the
count (10) exceeds both the repetition cap (5) and 0.3 of the token count
(3), yet `is_valid_response` accepts the text, because the repetition
check only runs for more than 10 tokens. -/
theorem c7_counterexample :
    is_valid_response s10ex 5 5 = true ∧
    3 < ("aaaaa").data.length ∧
    5 < countTok ("aaaaa").data ((pySplit s10ex.data).map normToken) ∧
    3 * (pySplit s10ex.data).length <
      10 * countTok ("aaaaa").data ((pySplit s10ex.data).map normToken) := by
  refine ⟨by decide, by decide, by decide, by decide⟩

set_option maxRecDepth 8192 in
/-- C7 (amended): for responses with MORE THAN 10 whitespace tokens, if
some normalized token longer than 3 characters occurs more than
`max_repetition = 5` times and more than 0.3 of the token count,
`is_valid_response` returns false; and `validate_and_sanitize` on the
25-word response repeating one 5-letter word 15 times returns the
fallback message. -/
theorem c7_amended :
    (∀ (s : String) (t : List Char),
      10 < (pySplit s.data).length →
      3 < t.length →
      5 < countTok t ((pySplit s.data).map normToken) →
      3 * (pySplit s.data).length < 10 * countTok t ((pySplit s.data).map normToken) →
      is_valid_response s 5 5 = false) ∧
    validate_and_sanitize s25ex (some "This is the fallback.") = "This is the fallback." := by
  constructor
  · intro s t hw hlen hcnt hratio
    exact invalid_of_repetition (repetitionExcessive_of_token hw hlen hcnt hratio)
  · decide

set_option maxRecDepth 8192 in
theorem c7_amended_witness : is_valid_response s25ex 5 5 = false :=
  c7_amended.1 s25ex ("alpha").data (by decide) (by decide) (by decide) (by decide)

set_option maxRecDepth 8192 in
/-- C8 counterexample: a string containing a 50-character run with no
allow-listed script character, embedded between ordinary words, is
accepted by `is_valid_response` — the source's third garbage pattern is
anchored to the whole string, not to runs. -/
theorem c8_counterexample :
    specRun50NoScript sRun50ex.data = true ∧
    is_valid_response sRun50ex 5 5 = true := by
  refine ⟨by decide, by decide⟩

/-- C8 (amended): `is_valid_response` returns false for every string that
(a) consists entirely of non-word characters and has length ≥ 10, or
(b) repeats one (non-newline) character 21+ times consecutively, or
(c) consists ENTIRELY of characters outside the allow-listed scripts and
has length ≥ 50; in particular it rejects `"!!!!!!!!!!!!"` and a
30-character string of `#`. -/
theorem c8_amended :
    (∀ s : String,
      ((10 ≤ s.data.length ∧ s.data.all (fun c => !isWordChar c || c == '_') = true) ∨
       run21 s.data = true ∨
       (50 ≤ s.data.length ∧ s.data.all (fun c => !inAllowList c) = true)) →
      is_valid_response s 5 5 = false) ∧
    is_valid_response "!!!!!!!!!!!!" 5 5 = false ∧
    is_valid_response "##############################" 5 5 = false := by
  refine ⟨?_, by decide, by decide⟩
  intro s h
  have hg : hasGarbage s.data = true := by
    rcases h with ⟨h1, h2⟩ | h | ⟨h1, h2⟩
    · have hgar : garbage1 s.data = true := by
        rw [garbage1, Bool.and_eq_true]
        exact ⟨decide_eq_true h1, h2⟩
      simp [hasGarbage, hgar]
    · simp [hasGarbage, h]
    · have hgar : garbage3 s.data = true := by
        rw [garbage3, Bool.and_eq_true]
        exact ⟨decide_eq_true h1, h2⟩
      simp [hasGarbage, hgar]
  simp [is_valid_response, hg]

theorem c8_amended_witness : is_valid_response "@@@@@@@@@@@@@@" 5 5 = false :=
  c8_amended.1 "@@@@@@@@@@@@@@" (Or.inl ⟨by decide, by decide⟩)

/-- C1 counterexample: with a retriever attached and the grounded RAG call
raising, `ask_question` returns sources `["General Knowledge"]`, not
`["General Knowledge Fallback"]` as the claim asserts. -/
theorem c1_counterexample :
    envRagError.ragAnswer
      (englishQ envRagError "What is the capital of France?" "en-IN")
      (langName "en-IN") = .error "rag failure" ∧
    (ask_question stActive envRagError "What is the capital of France?" "en-IN").1.sources
      = ["General Knowledge"] ∧
    (["General Knowledge"] : List String) ≠ ["General Knowledge Fallback"] := by
  refine ⟨rfl, by decide, by decide⟩

/-- C1 (amended): when a retriever is attached and the grounded call
raises, `ask_question` falls through to the general-knowledge block and
labels the result `General Knowledge` — the same label as when no
retriever is attached; the `General Knowledge Fallback` label is produced
only on the sentinel-phrase path (grounded call succeeded and its
validated answer contains the sentinel). -/
theorem c1_amended :
    (∀ (st : ChatState) (env : AskEnv) (query lang e : String),
      st.is_rag_active = true →
      env.ragAnswer (englishQ env query lang) (langName lang) = .error e →
      (ask_question st env query lang).1 =
        ⟨validate_and_sanitize (get_general_response env query (langName lang)) none,
         ["General Knowledge"]⟩) ∧
    (∀ (st : ChatState) (env : AskEnv) (query lang : String),
      (ask_question st env query lang).1.sources = ["General Knowledge Fallback"] →
      st.is_rag_active = true ∧
      ∃ raw, env.ragAnswer (englishQ env query lang) (langName lang) = .ok raw ∧
        containsSub SENTINEL.data (validate_and_sanitize raw (some FB1)).data = true) := by
  constructor
  · intro st env query lang e hR hA
    rw [ask_rag_err hR hA]
  · intro st env query lang h
    cases hR : st.is_rag_active
    · rw [ask_inactive hR] at h
      have hlist : (["General Knowledge"] : List String) = ["General Knowledge Fallback"] := h
      exact absurd hlist (by decide)
    · refine ⟨rfl, ?_⟩
      cases hA : env.ragAnswer (englishQ env query lang) (langName lang) with
      | error e =>
        rw [ask_rag_err hR hA] at h
        have hlist : (["General Knowledge"] : List String) = ["General Knowledge Fallback"] := h
        exact absurd hlist (by decide)
      | ok raw =>
        cases hS : containsSub SENTINEL.data (validate_and_sanitize raw (some FB1)).data
        · rw [ask_rag_ok_plain hR hA hS] at h
          have hlist : (["Course Content"] : List String) = ["General Knowledge Fallback"] := h
          exact absurd hlist (by decide)
        · exact ⟨raw, rfl, hS⟩

theorem c1_amended_witness :
    (ask_question stActive envRagError "What is the capital of France?" "en-IN").1 =
      ⟨validate_and_sanitize
        (get_general_response envRagError "What is the capital of France?" (langName "en-IN"))
        none,
       ["General Knowledge"]⟩ :=
  c1_amended.1 stActive envRagError "What is the capital of France?" "en-IN" "rag failure"
    rfl rfl

/-- C3 counterexample: on a non-pivot-language query whose grounded answer
is the sentinel, the general-knowledge fallback call receives the ORIGINAL
untranslated query (`"hola amigo"`), not the translator's output. -/
theorem c3_counterexample :
    (ask_question stActive envSentinel "hola amigo" "hi-IN").2 =
      [.translateCall "hola amigo" "hi-IN",
       .ragCall "translated query" "Hindi",
       .generalCall "hola amigo" "Hindi"] ∧
    envSentinel.translate "hola amigo" "hi-IN" ≠ "hola amigo" := by
  refine ⟨by decide, by decide⟩

/-- C3 (amended): with a retriever attached and a non-pivot language, the
translator is called exactly once and the grounded call receives the
translated text; but every general-knowledge generation call receives the
original untranslated query, and with no retriever attached the
translator is never called at all. -/
theorem c3_amended :
    (∀ (st : ChatState) (env : AskEnv) (query lang : String),
      st.is_rag_active = true → lang ≠ "en-IN" →
      ((ask_question st env query lang).2.filter isTransEv).length = 1 ∧
      (∀ a n, Event.ragCall a n ∈ (ask_question st env query lang).2 →
        a = env.translate query lang) ∧
      (∀ a n, Event.generalCall a n ∈ (ask_question st env query lang).2 →
        a = query)) ∧
    (∀ (st : ChatState) (env : AskEnv) (query lang : String),
      st.is_rag_active = false →
      ((ask_question st env query lang).2.filter isTransEv).length = 0) := by
  constructor
  · intro st env query lang hR hlang
    have hbeq : (query == query) = true := by simp
    have hcond : (lang == "en-IN") = false := by
      cases hx : lang == "en-IN"
      · rfl
      · exact absurd (by simpa using hx) hlang
    have henq : englishQ env query lang = env.translate query lang := by
      rw [englishQ, hcond]
      rfl
    have hte : transEvents query lang = [.translateCall query lang] := by
      rw [transEvents, hcond]
      rfl
    cases hA : env.ragAnswer (englishQ env query lang) (langName lang) with
    | error e =>
      rw [ask_rag_err hR hA, hte, henq]
      refine ⟨by simp [isTransEv], ?_, ?_⟩
      · intro a n hmem
        simp at hmem
        exact hmem.1
      · intro a n hmem
        simp at hmem
        exact hmem.1
    | ok raw =>
      cases hS : containsSub SENTINEL.data (validate_and_sanitize raw (some FB1)).data
      · rw [ask_rag_ok_plain hR hA hS, hte, henq]
        refine ⟨by simp [isTransEv], ?_, ?_⟩
        · intro a n hmem
          simp at hmem
          exact hmem.1
        · intro a n hmem
          simp at hmem
      · rw [ask_rag_ok_sentinel hR hA hS, hte, henq]
        refine ⟨by simp [isTransEv], ?_, ?_⟩
        · intro a n hmem
          simp at hmem
          exact hmem.1
        · intro a n hmem
          simp at hmem
          exact hmem.1
  · intro st env query lang hR
    rw [ask_inactive hR]
    rfl

theorem c3_amended_witness :
    ((ask_question stActive envSentinel "hola amigo" "hi-IN").2.filter isTransEv).length
      = 1 :=
  (c3_amended.1 stActive envSentinel "hola amigo" "hi-IN" rfl (by decide)).1

set_option maxRecDepth 8192 in
/-- C4: a grounded-path exception never propagates: `ask_question` catches
it, demotes to the general-knowledge fallback, and always returns an
answer/sources pair; if the general generation call itself also fails, the
answer is the fixed apology text (which passes validation). -/
theorem c4_error_absorbed :
    ∀ (st : ChatState) (env : AskEnv) (query lang e : String),
      st.is_rag_active = true →
      env.ragAnswer (englishQ env query lang) (langName lang) = .error e →
      ((ask_question st env query lang).1.answer =
        validate_and_sanitize (get_general_response env query (langName lang)) none ∧
       (ask_question st env query lang).1.sources = ["General Knowledge"]) ∧
      (∀ e2, env.generalApi query (langName lang) = .error e2 →
        (ask_question st env query lang).1.answer = APOLOGY_LLM) := by
  intro st env query lang e hR hA
  have h := ask_rag_err hR hA
  constructor
  · rw [h]
    exact ⟨rfl, rfl⟩
  · intro e2 hG
    rw [h]
    show validate_and_sanitize (get_general_response env query (langName lang)) none
      = APOLOGY_LLM
    simp only [get_general_response, hG]
    decide

theorem c4_error_absorbed_witness :
    (ask_question stActive envAllFail "anything" "en-IN").1.answer = APOLOGY_LLM :=
  (c4_error_absorbed stActive envAllFail "anything" "en-IN" "rag failure" rfl rfl).2
    "api down" rfl

/-- C6: with a retriever attached, a successful grounded call whose
validated answer contains the sentinel phrase triggers the
general-knowledge fallback, labelled `General Knowledge Fallback` with
exactly those sources. -/
theorem c6_sentinel_fallback :
    ∀ (st : ChatState) (env : AskEnv) (query lang raw : String),
      st.is_rag_active = true →
      env.ragAnswer (englishQ env query lang) (langName lang) = .ok raw →
      containsSub SENTINEL.data (validate_and_sanitize raw (some FB1)).data = true →
      (ask_question st env query lang).1 =
        ⟨validate_and_sanitize (get_general_response env query (langName lang)) none,
         ["General Knowledge Fallback"]⟩ := by
  intro st env query lang raw hR hA hS
  rw [ask_rag_ok_sentinel hR hA hS]

theorem c6_sentinel_fallback_witness :
    (ask_question stActive envSentinel "What is X?" "en-IN").1 =
      ⟨validate_and_sanitize
        (get_general_response envSentinel "What is X?" (langName "en-IN")) none,
       ["General Knowledge Fallback"]⟩ :=
  c6_sentinel_fallback stActive envSentinel "What is X?" "en-IN"
    "I cannot find the answer" rfl rfl (by decide)

/-- An ingest environment whose extraction succeeds with one document but
whose vector-store re-initialization fails (returns nothing, its
exception having been swallowed inside `_initialize_vector_store`). -/
def envIngestReinitFail : IngestEnv :=
  ⟨.ok ["doc"], fun d => d, true, none⟩

/-- An ingest environment for a successful first-time commit. -/
def envIngestFreshOk : IngestEnv :=
  ⟨.ok ["doc"], fun d => d, true, some []⟩

/-- C5 counterexample: with no index attached and re-initialization
failing, `update_with_course_content` completes WITHOUT raising, yet the
documents were not committed and `is_rag_active` stays false — the
failure is silently swallowed, contradicting "either the commit fully
succeeds ... or the error is raised". -/
theorem c5_counterexample :
    (update_with_course_content ⟨none, false⟩ envIngestReinitFail).1 = .ok () ∧
    (update_with_course_content ⟨none, false⟩ envIngestReinitFail).2.vector_store = none ∧
    (update_with_course_content ⟨none, false⟩ envIngestReinitFail).2.is_rag_active = false := by
  refine ⟨rfl, rfl, rfl⟩

/-- C5 (amended): `update_with_course_content` never changes
`is_rag_active` on a raised error, and a fully successful commit onto a
freshly re-initialized index flips it to true; but when no index exists
and re-initialization itself fails, the call returns without error and
without committing, leaving the flag unchanged (the failure is swallowed
inside the initializer). -/
theorem c5_amended :
    (∀ (st : ChatState) (env : IngestEnv) (e : String),
      (update_with_course_content st env).1 = .error e →
      (update_with_course_content st env).2.is_rag_active = st.is_rag_active) ∧
    (∀ (st : ChatState) (env : IngestEnv) (docs idx : List String),
      env.extract = .ok docs → docs ≠ [] → st.vector_store = none →
      env.reinit = some idx → env.addOk = true →
      update_with_course_content st env =
        (.ok (), ⟨some (idx ++ env.split docs), true⟩)) ∧
    (∀ (st : ChatState) (env : IngestEnv) (docs : List String),
      env.extract = .ok docs → docs ≠ [] → st.vector_store = none →
      env.reinit = none →
      update_with_course_content st env = (.ok (), st)) := by
  refine ⟨?_, ?_, ?_⟩
  · intro st env e h
    unfold update_with_course_content at h ⊢
    cases hx : env.extract with
    | error e2 => simp [hx] at h ⊢
    | ok docs =>
      simp only [hx] at h ⊢
      by_cases hd : docs.isEmpty
      · rw [if_pos hd] at h
        simp at h
      · rw [if_neg hd] at h ⊢
        cases hv : st.vector_store with
        | some idx =>
          simp only [hv] at h ⊢
          cases ha : env.addOk
          · simp [ha]
          · simp [ha] at h
        | none =>
          simp only [hv] at h ⊢
          cases hr : env.reinit with
          | none => simp [hr] at h
          | some idx =>
            simp only [hr] at h ⊢
            cases ha : env.addOk
            · simp [ha]
            · simp [ha] at h
  · intro st env docs idx hx hd hv hr ha
    have hde : docs.isEmpty = false := by
      cases docs
      · exact absurd rfl hd
      · rfl
    unfold update_with_course_content
    rw [hx, hv, hr]
    simp [hde, ha]
  · intro st env docs hx hd hv hr
    have hde : docs.isEmpty = false := by
      cases docs
      · exact absurd rfl hd
      · rfl
    unfold update_with_course_content
    rw [hx, hv, hr]
    simp [hde]

theorem c5_amended_witness :
    update_with_course_content ⟨none, false⟩ envIngestFreshOk =
      (.ok (), ⟨some (([] : List String) ++ envIngestFreshOk.split ["doc"]), true⟩) :=
  c5_amended.2.1 ⟨none, false⟩ envIngestFreshOk ["doc"] [] rfl (by simp) rfl rfl rfl
